import Mathlib

/-!
# A shallow embedding of fontPens' `flattenPen` module

This file embeds `src/Lib/fontPens/flattenPen.py` — the `FlattenPen` filter pen
and the `flattenGlyph` convenience function — together with the geometric
primitives that module imports from `penTools` (which is not part of the
sources here and is therefore modelled from the specification).  Python float
arithmetic is modelled by exact rationals; a Python run-time error (such as the
`TypeError` raised when `distance` is applied to the undefined current point
`None`) is modelled by `Except.error`.

The `fontTools` base class `BasePen` only dispatches the public pen methods
`moveTo`/`lineTo`/`curveTo`/`closePath`/`endPath` to the `_moveTo`/`_lineTo`/
`_curveToOne`/`_closePath`/`_endPath` hooks that `FlattenPen` overrides (its
private current-point bookkeeping is never consulted by `FlattenPen`), so the
embedding works directly with those hooks.
-/

namespace FontPens

/-- A point: a pair of coordinates.  Python's float components are modelled by
exact rationals; point equality is component-wise and exact, as in the code. -/
abbrev Point := ℚ × ℚ

/-- The transformation value carried by `addComponent`; an affine transform,
six numbers. -/
abbrev Transform := ℚ × ℚ × ℚ × ℚ × ℚ × ℚ

/-- The segment-pen protocol events.  `lineTo` carries an `Option Point`
because Python may pass `None` (an undefined point) through `_closePath`'s
synthesized `self.lineTo(self.firstPt)` call when no `moveTo` has occurred;
every event produced from an actual point carries `some`. -/
inductive Event where
  | moveTo (pt : Point)
  | lineTo (pt : Option Point)
  | curveTo (pt1 pt2 pt3 : Point)
  | closePath
  | endPath
  | addComponent (glyphName : String) (transformation : Transform)
  deriving DecidableEq, Repr

/-- Python 3's built-in `round` to an integer: round half to even.  The code
wraps it in `int(...)`, which is the identity on the integral result. -/
def pyRound (x : ℚ) : ℤ :=
  if x - ⌊x⌋ < 1 / 2 then ⌊x⌋
  else if 1 / 2 < x - ⌊x⌋ then ⌊x⌋ + 1
  else if ⌊x⌋ % 2 = 0 then ⌊x⌋ else ⌊x⌋ + 1

/-- Modelled from the spec: the geometric primitives imported from `penTools`,
which is not among the sources.  `sqrt` is the square-root map used by the
Euclidean `distance`, and `estimateCubicCurveLength` is "a deterministic
estimate of the curve's arc length" whose exact formula the spec leaves open.
Both are kept abstract as parameters of the embedding, so every theorem below
holds for every choice of them. -/
structure GeomOps where
  sqrt : ℚ → ℚ
  estimateCubicCurveLength : Point → Point → Point → Point → ℚ

/-- Modelled from the spec: `distance(a, b)` is the Euclidean distance
`sqrt((bx − ax)^2 + (by − ay)^2)`; `penTools.distance` is not among the
sources. -/
def distance (G : GeomOps) (a b : Point) : ℚ :=
  G.sqrt ((b.1 - a.1) ^ 2 + (b.2 - a.2) ^ 2)

/-- Modelled from the spec: `interpolate(a, b, t) = a + (b − a) * t`, applied
independently to each coordinate; `penTools.interpolatePoint` is not among the
sources. -/
def interpolatePoint (a b : Point) (t : ℚ) : Point :=
  (a.1 + (b.1 - a.1) * t, a.2 + (b.2 - a.2) * t)

/-- Modelled from the spec: standard cubic Bezier evaluation at parameter `t`;
`penTools.getCubicPoint` is not among the sources. -/
def getCubicPoint (t : ℚ) (p0 p1 p2 p3 : Point) : Point :=
  ((1 - t) ^ 3 * p0.1 + 3 * (1 - t) ^ 2 * t * p1.1
      + 3 * (1 - t) * t ^ 2 * p2.1 + t ^ 3 * p3.1,
   (1 - t) ^ 3 * p0.2 + 3 * (1 - t) ^ 2 * t * p1.2
      + 3 * (1 - t) * t ^ 2 * p2.2 + t ^ 3 * p3.2)

/-- The constructor configuration of a `FlattenPen`, fixed for the lifetime of
the instance: `approximateSegmentLength`, `segmentLines`, `filterDoubles`. -/
structure Config where
  approximateSegmentLength : ℚ
  segmentLines : Bool
  filterDoubles : Bool
  deriving DecidableEq, Repr

/-- The constructor's default configuration:
`approximateSegmentLength=5, segmentLines=False, filterDoubles=True`. -/
def defaultConfig : Config :=
  { approximateSegmentLength := 5, segmentLines := false, filterDoubles := true }

/-- The mutable state of a `FlattenPen`: `self.currentPt` and `self.firstPt`,
both initialized to `None` by the constructor. -/
structure PenState where
  currentPt : Option Point
  firstPt : Option Point
  deriving DecidableEq, Repr

/-- The state of a freshly constructed `FlattenPen`. -/
def freshPen : PenState := { currentPt := none, firstPt := none }

/-- The result of one pen method: either a Python run-time error, or the
updated pen state together with the list of calls forwarded to `otherPen`
(in order). -/
abbrev PenResult := Except Unit (PenState × List Event)

namespace FlattenPen

/-- `FlattenPen._moveTo`: forward `moveTo(pt)` downstream, set both
`currentPt` and `firstPt` to `pt`. -/
def _moveTo (s : PenState) (pt : Point) : PenState × List Event :=
  ({ s with currentPt := some pt, firstPt := some pt }, [Event.moveTo pt])

/-- `FlattenPen._lineTo`.  The argument is an `Option Point` because
`_closePath` passes `self.firstPt` (possibly `None`) to it.  The Python
comparison `pt == self.currentPt` is `Option` equality; `distance` applied to
`None` raises a `TypeError`, modelled as `Except.error`.  The float
expressions `d / approximateSegmentLength`, `1.0 / maxSteps` and `i * step`
are read as exact rationals here (an idealization that erases binary64
rounding); `lineToF64` below is the rounding-faithful second embedding of the
same source lines, used for the claim that is sensitive to rounding. -/
def _lineTo (G : GeomOps) (cfg : Config) (s : PenState) (pt : Option Point) :
    PenResult :=
  if cfg.filterDoubles ∧ pt = s.currentPt then
    .ok (s, [])
  else if !cfg.segmentLines then
    .ok ({ s with currentPt := pt }, [Event.lineTo pt])
  else
    match s.currentPt, pt with
    | some cur, some p =>
      let d := distance G cur p
      let maxSteps : ℤ := pyRound (d / cfg.approximateSegmentLength)
      if maxSteps < 1 then
        .ok ({ s with currentPt := pt }, [Event.lineTo pt])
      else
        let step : ℚ := 1 / (maxSteps : ℚ)
        .ok ({ s with currentPt := pt },
          (List.range' 1 maxSteps.toNat).map
            (fun (i : ℕ) => Event.lineTo (some (interpolatePoint cur p ((i : ℚ) * step)))))
    | _, _ => .error ()

/-- `FlattenPen._curveToOne`.  The first thing the Python body does is apply
`estimateCubicCurveLength` to `self.currentPt`, which raises a `TypeError` when
the current point is `None`; otherwise it chooses between a single `lineTo` (a
step count below one, or a false curve) and a sampled subdivision. -/
def _curveToOne (G : GeomOps) (cfg : Config) (s : PenState)
    (pt1 pt2 pt3 : Point) : PenResult :=
  match s.currentPt with
  | none => .error ()
  | some cur =>
    let est := G.estimateCubicCurveLength cur pt1 pt2 pt3 / cfg.approximateSegmentLength
    let maxSteps : ℤ := pyRound est
    if maxSteps < 1 ∨ (pt1 = cur ∧ pt2 = pt3) then
      .ok ({ s with currentPt := some pt3 }, [Event.lineTo (some pt3)])
    else
      let step : ℚ := 1 / (maxSteps : ℚ)
      .ok ({ s with currentPt := some pt3 },
        (List.range' 1 maxSteps.toNat).map
          (fun (i : ℕ) => Event.lineTo (some (getCubicPoint ((i : ℚ) * step) cur pt1 pt2 pt3))))

/-- `FlattenPen._closePath`: run the pen's own `lineTo` on `self.firstPt`, then
forward `closePath`, then set `currentPt` (and only `currentPt`) to `None`. -/
def _closePath (G : GeomOps) (cfg : Config) (s : PenState) : PenResult :=
  match _lineTo G cfg s s.firstPt with
  | .error e => .error e
  | .ok (s1, evs) => .ok ({ s1 with currentPt := none }, evs ++ [Event.closePath])

/-- `FlattenPen._endPath`: forward `endPath`, set `currentPt` to `None`
(`firstPt` is left as it is). -/
def _endPath (s : PenState) : PenState × List Event :=
  ({ s with currentPt := none }, [Event.endPath])

/-- `FlattenPen.addComponent`: forward the call unchanged; no state change. -/
def addComponent (s : PenState) (glyphName : String) (transformation : Transform) :
    PenState × List Event :=
  (s, [Event.addComponent glyphName transformation])

/-- One public pen call dispatched through `BasePen` to the `FlattenPen`
hooks.  A producer-issued `lineTo` always carries an actual point (`some`). -/
def step (G : GeomOps) (cfg : Config) (s : PenState) : Event → PenResult
  | .moveTo pt => .ok (_moveTo s pt)
  | .lineTo pt => _lineTo G cfg s pt
  | .curveTo pt1 pt2 pt3 => _curveToOne G cfg s pt1 pt2 pt3
  | .closePath => _closePath G cfg s
  | .endPath => .ok (_endPath s)
  | .addComponent n t => .ok (addComponent s n t)

/-- Drive a whole sequence of calls through the pen.  The first component
collects every call forwarded downstream before an error (if any) stopped the
run; the second is the final pen state or the error. -/
def run (G : GeomOps) (cfg : Config) (s : PenState) :
    List Event → List Event × Except Unit PenState
  | [] => ([], .ok s)
  | e :: es =>
    match step G cfg s e with
    | .error err => ([], .error err)
    | .ok (s1, evs) =>
      let rest := run G cfg s1 es
      (evs ++ rest.1, rest.2)

end FlattenPen

/-- One contour: the event run that draws it. -/
abbrev Contour := List Event

/-- Modelled from the spec: the outline (glyph) object used by `flattenGlyph`
is external to the sources (`fontParts`); it exposes its number of contours
(Python `len`), can stream itself into a pen (`draw`), and can be cleared and
rebuilt from a replayed event stream. -/
structure Glyph where
  contours : List Contour
  deriving DecidableEq, Repr

/-- Python `len(aGlyph)`: the number of contours. -/
def Glyph.len (g : Glyph) : ℕ := g.contours.length

/-- `aGlyph.draw(pen)`: stream every contour's events, in order. -/
def Glyph.draw (g : Glyph) : List Event := g.contours.flatten

/-- Modelled from the spec: rebuilding a cleared glyph from a replayed event
stream groups the events into contours, one per terminating
`closePath`/`endPath`; a trailing unterminated run forms a final contour. -/
def splitContoursGo : List Event → List Event → List Contour
  | [], acc => if acc = [] then [] else [acc.reverse]
  | e :: es, acc =>
    match e with
    | .closePath => (acc.reverse ++ [Event.closePath]) :: splitContoursGo es []
    | .endPath => (acc.reverse ++ [Event.endPath]) :: splitContoursGo es []
    | _ => splitContoursGo es (e :: acc)

/-- Rebuild a glyph's contours from an event stream. -/
def splitContours (evs : List Event) : List Contour :=
  splitContoursGo evs []

/-- `flattenGlyph(aGlyph, threshold, segmentLines)`: if the glyph has no
contours, return it unchanged; otherwise draw it through a
`FlattenPen(SegmentToPointPen(data), approximateSegmentLength=threshold,
segmentLines=segmentLines)` (so `filterDoubles` keeps its default `True`),
clear the glyph, and replay the buffered events into it.  The buffering
point-pen round trip (`SegmentToPointPen`/`DataPointPen`) is external to the
sources and is modelled from the spec as recording and replaying the forwarded
events. -/
def flattenGlyph (G : GeomOps) (aGlyph : Glyph) (threshold : ℚ)
    (segmentLines : Bool) : Except Unit Glyph :=
  if aGlyph.len = 0 then .ok aGlyph
  else
    let cfg : Config :=
      { approximateSegmentLength := threshold, segmentLines := segmentLines,
        filterDoubles := true }
    match FlattenPen.run G cfg freshPen aGlyph.draw with
    | (_, .error e) => .error e
    | (buffer, .ok _) => .ok { contours := splitContours buffer }

/-- A concrete choice of the abstract geometry, used to evaluate the embedding
on concrete inputs: `sqrt` is read as the identity and the arc-length estimate
as the constant zero. -/
def G0 : GeomOps :=
  { sqrt := fun q => q, estimateCubicCurveLength := fun _ _ _ _ => 0 }

/-- An input event that a pure-line producer may issue: a `moveTo`, a `lineTo`
to an actual point, or an `endPath`. -/
def lineOnlyEvent : Event → Bool
  | .moveTo _ => true
  | .lineTo (some _) => true
  | .endPath => true
  | _ => false

/-! ## A binary64-faithful second embedding of `_lineTo`

The embedding above reads Python float expressions as exact rationals.  That
is faithful for every branch decision and for the values the code assigns
verbatim (such as `self.currentPt = pt`), but it idealizes the values
produced by chains of float arithmetic: in IEEE-754 binary64,
`maxSteps * (1.0 / maxSteps)` need not be `1.0`, so the last interpolated
sample need not equal `pt` bit-exactly.  The definitions below repeat the
same source lines with every arithmetic operation rounded to binary64. -/

/-- IEEE-754 binary64 rounding (round to nearest, ties to even) of an exact
value: the value is scaled into the integer significand range at its binade
(`Int.log 2`) and rounded half-to-even — `pyRound` is exactly that rounding.
Overflow and subnormal underflow are not modelled; every value arising in
this development lies well inside the normal range. -/
def fl (x : ℚ) : ℚ :=
  if x = 0 then 0
  else if 0 < x then
    ((pyRound (x * 2 ^ ((52 : ℤ) - Int.log 2 x)) : ℚ)) * 2 ^ (Int.log 2 x - 52)
  else
    -(((pyRound (-x * 2 ^ ((52 : ℤ) - Int.log 2 (-x))) : ℚ)) * 2 ^ (Int.log 2 (-x) - 52))

/-- One Python float addition. -/
def fadd (x y : ℚ) : ℚ := fl (x + y)

/-- One Python float subtraction. -/
def fsub (x y : ℚ) : ℚ := fl (x - y)

/-- One Python float multiplication (also used for `** 2`, which is exact
squaring correctly rounded). -/
def fmul (x y : ℚ) : ℚ := fl (x * y)

/-- One Python float division. -/
def fdiv (x y : ℚ) : ℚ := fl (x / y)

/-- Modelled from the spec, with binary64 rounding of each operation:
`distance(a, b) = sqrt((bx - ax)**2 + (by - ay)**2)`.  `sqrtF` stands for the
math library's square root (correctly rounded in IEEE-754). -/
def distanceF (sqrtF : ℚ → ℚ) (a b : Point) : ℚ :=
  sqrtF (fadd (fmul (fsub b.1 a.1) (fsub b.1 a.1)) (fmul (fsub b.2 a.2) (fsub b.2 a.2)))

/-- Modelled from the spec, with binary64 rounding of each operation:
`interpolate(a, b, t) = a + (b - a) * t` per coordinate. -/
def interpolatePointF (a b : Point) (t : ℚ) : Point :=
  (fadd a.1 (fmul (fsub b.1 a.1) t), fadd a.2 (fmul (fsub b.2 a.2) t))

/-- `FlattenPen._lineTo` again, binary64-faithfully: the same branch
structure, with `d / approximateSegmentLength`, `1.0 / maxSteps` and
`i * step` rounded at every operation as the running program rounds them. -/
def FlattenPen.lineToF64 (sqrtF : ℚ → ℚ) (cfg : Config) (s : PenState)
    (pt : Option Point) : PenResult :=
  if cfg.filterDoubles ∧ pt = s.currentPt then
    .ok (s, [])
  else if !cfg.segmentLines then
    .ok ({ s with currentPt := pt }, [Event.lineTo pt])
  else
    match s.currentPt, pt with
    | some cur, some p =>
      let d := distanceF sqrtF cur p
      let maxSteps : ℤ := pyRound (fdiv d cfg.approximateSegmentLength)
      if maxSteps < 1 then
        .ok ({ s with currentPt := pt }, [Event.lineTo pt])
      else
        let step : ℚ := fdiv 1 (maxSteps : ℚ)
        .ok ({ s with currentPt := pt },
          (List.range' 1 maxSteps.toNat).map
            (fun (i : ℕ) => Event.lineTo (some (interpolatePointF cur p (fmul (i : ℚ) step)))))
    | _, _ => .error ()

/-- A concrete square root for the counterexample run: IEEE-754 sqrt is
correctly rounded, and 60025 = 245^2 exactly, so `sqrt(60025.0) = 245.0`. -/
def sqrtF0 : ℚ → ℚ := fun q => if q = 60025 then 245 else 0

/-! ## Helper lemmas -/

theorem range'_one_getLast? (n : ℕ) (hn : n ≠ 0) :
    (List.range' 1 n).getLast? = some n := by
  obtain ⟨m, rfl⟩ := Nat.exists_eq_succ_of_ne_zero hn
  rw [List.range'_1_concat, List.getLast?_concat, Nat.add_comm]

/-- `Int.log 2` is characterized by the binade inequalities. -/
theorem int_log_eq (r : ℚ) (e : ℤ) (hr : 0 < r)
    (h1 : (2 : ℚ) ^ e ≤ r) (h2 : r < (2 : ℚ) ^ (e + 1)) : Int.log 2 r = e := by
  have hb : 1 < 2 := by norm_num
  have hle : e ≤ Int.log 2 r := by
    rw [← Int.zpow_le_iff_le_log hb hr]
    exact_mod_cast h1
  have hlt : Int.log 2 r < e + 1 := by
    rw [← Int.lt_zpow_iff_log_lt hb hr]
    exact_mod_cast h2
  omega

/-- Evaluating `pyRound` when the value is nearer the floor. -/
theorem pyRound_int (x : ℚ) (n : ℤ) (hfl : ⌊x⌋ = n) (hlt : x - (n : ℚ) < 1 / 2) :
    pyRound x = n := by
  unfold pyRound
  rw [hfl, if_pos hlt]

/-- Evaluating `fl` at a positive value from its binade and rounded
significand. -/
theorem fl_eval_pos (x : ℚ) (e m : ℤ) (hx : 0 < x)
    (h1 : (2 : ℚ) ^ e ≤ x) (h2 : x < (2 : ℚ) ^ (e + 1))
    (hm : pyRound (x * 2 ^ ((52 : ℤ) - e)) = m) :
    fl x = (m : ℚ) * 2 ^ (e - 52) := by
  have hlog : Int.log 2 x = e := int_log_eq x e hx h1 h2
  unfold fl
  rw [if_neg hx.ne', if_pos hx, hlog, hm]

theorem fl_zero : fl 0 = 0 := by
  unfold fl
  rw [if_pos rfl]

theorem fl_245 : fl (245 : ℚ) = 245 := by
  have h := fl_eval_pos 245 7 (245 * 2 ^ 45) (by norm_num) (by norm_num) (by norm_num)
    (pyRound_int _ _ (by norm_num) (by norm_num))
  rw [h]
  norm_num

theorem fl_49 : fl (49 : ℚ) = 49 := by
  have h := fl_eval_pos 49 5 (49 * 2 ^ 47) (by norm_num) (by norm_num) (by norm_num)
    (pyRound_int _ _ (by norm_num) (by norm_num))
  rw [h]
  norm_num

theorem fl_60025 : fl (60025 : ℚ) = 60025 := by
  have h := fl_eval_pos 60025 15 (60025 * 2 ^ 37) (by norm_num) (by norm_num) (by norm_num)
    (pyRound_int _ _ (by norm_num) (by norm_num))
  rw [h]
  norm_num

/-- `fl(1/49)` falls short of `1/49`: the rounded significand is
5882252574524729 (the scaled remainder 23/49 is below one half). -/
theorem fl_inv49 : fl (1 / 49 : ℚ) = 5882252574524729 / 2 ^ 58 := by
  have h := fl_eval_pos (1 / 49) (-6) 5882252574524729 (by norm_num) (by norm_num)
    (by norm_num) (pyRound_int _ _ (by norm_num) (by norm_num))
  rw [h]
  norm_num

/-- `fl(49 * fl(1/49)) = 1 - 2^-53`, not `1.0`. -/
theorem fl_t49 : fl (49 * (5882252574524729 / 2 ^ 58) : ℚ) = 9007199254740991 / 2 ^ 53 := by
  have h := fl_eval_pos (49 * (5882252574524729 / 2 ^ 58)) (-1) 9007199254740991
    (by norm_num) (by norm_num) (by norm_num)
    (pyRound_int _ _ (by norm_num) (by norm_num))
  rw [h]
  norm_num

/-- `fl(245 * (1 - 2^-53)) = 245 - 2^-45`: the deficit is 0.957 ulp of 245 and
rounds to a full ulp. -/
theorem fl_lastx : fl (245 * (9007199254740991 / 2 ^ 53) : ℚ) = 8620171161763839 / 2 ^ 45 := by
  have h := fl_eval_pos (245 * (9007199254740991 / 2 ^ 53)) 7 8620171161763839
    (by norm_num) (by norm_num) (by norm_num)
    (pyRound_int _ _ (by norm_num) (by norm_num))
  rw [h]
  norm_num

/-- `245 - 2^-45` is representable, so `fl` leaves it unchanged. -/
theorem fl_lastx_rep : fl (8620171161763839 / 2 ^ 45 : ℚ) = 8620171161763839 / 2 ^ 45 := by
  have h := fl_eval_pos (8620171161763839 / 2 ^ 45) 7 8620171161763839
    (by norm_num) (by norm_num) (by norm_num)
    (pyRound_int _ _ (by norm_num) (by norm_num))
  rw [h]
  norm_num

theorem pyRound_49 : pyRound (49 : ℚ) = 49 :=
  pyRound_int _ _ (by norm_num) (by norm_num)

/-- Everything `_lineTo` forwards downstream is a `lineTo`. -/
theorem lineTo_emits_only_lines (G : GeomOps) (cfg : Config) (s : PenState)
    (pt : Option Point) (s1 : PenState) (evs : List Event)
    (h : FlattenPen._lineTo G cfg s pt = .ok (s1, evs)) :
    ∀ e ∈ evs, ∃ q, e = Event.lineTo q := by
  unfold FlattenPen._lineTo at h
  split at h
  · obtain ⟨rfl, rfl⟩ := Prod.mk.injEq .. ▸ Except.ok.injEq .. ▸ h
    simp
  · split at h
    · obtain ⟨rfl, rfl⟩ := Prod.mk.injEq .. ▸ Except.ok.injEq .. ▸ h
      simp
    · split at h
      · next cur p =>
        dsimp only at h
        split at h
        · obtain ⟨rfl, rfl⟩ := Prod.mk.injEq .. ▸ Except.ok.injEq .. ▸ h
          simp
        · obtain ⟨rfl, rfl⟩ := Prod.mk.injEq .. ▸ Except.ok.injEq .. ▸ h
          intro e he
          obtain ⟨i, _, rfl⟩ := List.mem_map.1 he
          exact ⟨_, rfl⟩
      · exact absurd h (by simp)

/-- Everything `_curveToOne` forwards downstream is a `lineTo`. -/
theorem curveToOne_emits_only_lines (G : GeomOps) (cfg : Config) (s : PenState)
    (pt1 pt2 pt3 : Point) (s1 : PenState) (evs : List Event)
    (h : FlattenPen._curveToOne G cfg s pt1 pt2 pt3 = .ok (s1, evs)) :
    ∀ e ∈ evs, ∃ q, e = Event.lineTo q := by
  unfold FlattenPen._curveToOne at h
  split at h
  · exact absurd h (by simp)
  · dsimp only at h
    split at h
    · obtain ⟨rfl, rfl⟩ := Prod.mk.injEq .. ▸ Except.ok.injEq .. ▸ h
      simp
    · obtain ⟨rfl, rfl⟩ := Prod.mk.injEq .. ▸ Except.ok.injEq .. ▸ h
      intro e he
      obtain ⟨i, _, rfl⟩ := List.mem_map.1 he
      exact ⟨_, rfl⟩

/-- When the current point is defined, `_lineTo` applied to an actual point
never raises, and it never touches `firstPt`. -/
theorem lineTo_some_ok (G : GeomOps) (cfg : Config) (s : PenState) (A p : Point)
    (hC : s.currentPt = some A) :
    ∃ s1 evs, FlattenPen._lineTo G cfg s (some p) = .ok (s1, evs) ∧
      s1.firstPt = s.firstPt := by
  unfold FlattenPen._lineTo
  split
  · exact ⟨s, [], rfl, rfl⟩
  · split
    · exact ⟨_, _, rfl, rfl⟩
    · rw [hC]
      dsimp only
      split
      · exact ⟨_, _, rfl, rfl⟩
      · exact ⟨_, _, rfl, rfl⟩

/-- No single pen call ever forwards a `curveTo` downstream. -/
theorem step_emits_no_curveTo (G : GeomOps) (cfg : Config) (s : PenState)
    (e : Event) (s1 : PenState) (evs : List Event)
    (h : FlattenPen.step G cfg s e = .ok (s1, evs)) (p1 p2 p3 : Point) :
    Event.curveTo p1 p2 p3 ∉ evs := by
  cases e with
  | moveTo pt =>
    simp only [FlattenPen.step, FlattenPen._moveTo, Except.ok.injEq, Prod.mk.injEq] at h
    simp [← h.2]
  | lineTo pt =>
    intro hmem
    obtain ⟨q, hq⟩ := lineTo_emits_only_lines G cfg s pt s1 evs h _ hmem
    cases hq
  | curveTo q1 q2 q3 =>
    intro hmem
    obtain ⟨q, hq⟩ := curveToOne_emits_only_lines G cfg s q1 q2 q3 s1 evs h _ hmem
    cases hq
  | closePath =>
    simp only [FlattenPen.step, FlattenPen._closePath] at h
    cases hline : FlattenPen._lineTo G cfg s s.firstPt with
    | error err => rw [hline] at h; cases h
    | ok pr =>
      rw [hline] at h
      obtain ⟨s', evs'⟩ := pr
      simp only [Except.ok.injEq, Prod.mk.injEq] at h
      intro hmem
      rw [← h.2] at hmem
      rcases List.mem_append.1 hmem with hm | hm
      · obtain ⟨q, hq⟩ := lineTo_emits_only_lines G cfg s s.firstPt s' evs' hline _ hm
        cases hq
      · simp at hm
  | endPath =>
    simp only [FlattenPen.step, FlattenPen._endPath, Except.ok.injEq, Prod.mk.injEq] at h
    simp [← h.2]
  | addComponent n t =>
    simp only [FlattenPen.step, FlattenPen.addComponent, Except.ok.injEq, Prod.mk.injEq] at h
    simp [← h.2]

/-- No run of the pen ever forwards a `curveTo` downstream. -/
theorem run_emits_no_curveTo (G : GeomOps) (cfg : Config) (s : PenState)
    (input : List Event) (p1 p2 p3 : Point) :
    Event.curveTo p1 p2 p3 ∉ (FlattenPen.run G cfg s input).1 := by
  induction input generalizing s with
  | nil => simp [FlattenPen.run]
  | cons e es ih =>
    rw [FlattenPen.run]
    cases hstep : FlattenPen.step G cfg s e with
    | error err => simp
    | ok pr =>
      obtain ⟨s1, evs⟩ := pr
      intro hmem
      rcases List.mem_append.1 hmem with hm | hm
      · exact step_emits_no_curveTo G cfg s e s1 evs hstep p1 p2 p3 hm
      · exact ih s1 hm

/-- Every event of every contour that `splitContoursGo` builds comes from the
replayed stream, from the accumulator, or is one of the two terminators. -/
theorem splitContoursGo_mem (evs : List Event) :
    ∀ (acc : List Event) (c : Contour), c ∈ splitContoursGo evs acc →
      ∀ e ∈ c, e ∈ evs ∨ e ∈ acc ∨ e = Event.closePath ∨ e = Event.endPath := by
  induction evs with
  | nil =>
    intro acc c hc e he
    simp only [splitContoursGo] at hc
    split at hc
    · cases hc
    · rw [List.mem_singleton] at hc
      subst hc
      exact Or.inr (Or.inl (List.mem_reverse.1 he))
  | cons ev es ih =>
    intro acc c hc e he
    cases ev with
    | closePath =>
      simp only [splitContoursGo, List.mem_cons] at hc
      rcases hc with rfl | hc
      · rcases List.mem_append.1 he with hm | hm
        · exact Or.inr (Or.inl (List.mem_reverse.1 hm))
        · simp only [List.mem_singleton] at hm
          exact Or.inr (Or.inr (Or.inl hm))
      · rcases ih [] c hc e he with hm | hm | hm
        · exact Or.inl (List.mem_cons_of_mem _ hm)
        · cases hm
        · exact Or.inr (Or.inr hm)
    | endPath =>
      simp only [splitContoursGo, List.mem_cons] at hc
      rcases hc with rfl | hc
      · rcases List.mem_append.1 he with hm | hm
        · exact Or.inr (Or.inl (List.mem_reverse.1 hm))
        · simp only [List.mem_singleton] at hm
          exact Or.inr (Or.inr (Or.inr hm))
      · rcases ih [] c hc e he with hm | hm | hm
        · exact Or.inl (List.mem_cons_of_mem _ hm)
        · cases hm
        · exact Or.inr (Or.inr hm)
    | moveTo pt =>
      simp only [splitContoursGo] at hc
      rcases ih _ c hc e he with hm | hm | hm
      · exact Or.inl (List.mem_cons_of_mem _ hm)
      · rcases List.mem_cons.1 hm with rfl | hm'
        · exact Or.inl (List.mem_cons_self _ _)
        · exact Or.inr (Or.inl hm')
      · exact Or.inr (Or.inr hm)
    | lineTo pt =>
      simp only [splitContoursGo] at hc
      rcases ih _ c hc e he with hm | hm | hm
      · exact Or.inl (List.mem_cons_of_mem _ hm)
      · rcases List.mem_cons.1 hm with rfl | hm'
        · exact Or.inl (List.mem_cons_self _ _)
        · exact Or.inr (Or.inl hm')
      · exact Or.inr (Or.inr hm)
    | curveTo q1 q2 q3 =>
      simp only [splitContoursGo] at hc
      rcases ih _ c hc e he with hm | hm | hm
      · exact Or.inl (List.mem_cons_of_mem _ hm)
      · rcases List.mem_cons.1 hm with rfl | hm'
        · exact Or.inl (List.mem_cons_self _ _)
        · exact Or.inr (Or.inl hm')
      · exact Or.inr (Or.inr hm)
    | addComponent n t =>
      simp only [splitContoursGo] at hc
      rcases ih _ c hc e he with hm | hm | hm
      · exact Or.inl (List.mem_cons_of_mem _ hm)
      · rcases List.mem_cons.1 hm with rfl | hm'
        · exact Or.inl (List.mem_cons_self _ _)
        · exact Or.inr (Or.inl hm')
      · exact Or.inr (Or.inr hm)

/-! ## Claim theorems -/

/-- Claim C1: for every input event stream driven through a FlattenPen, the
downstream consumer never receives a curveTo call, for every configuration of
approximateSegmentLength, segmentLines, and filterDoubles (and every choice of
the geometric primitives). -/
theorem C1_curve_elimination (G : GeomOps) (cfg : Config) (s : PenState)
    (input : List Event) (p1 p2 p3 : Point) :
    Event.curveTo p1 p2 p3 ∉ (FlattenPen.run G cfg s input).1 :=
  run_emits_no_curveTo G cfg s input p1 p2 p3

/-- Claim C4: a cubic curveTo whose first control point equals the current
point and whose second control point equals the end point (a disguised
straight line) is flattened to exactly one lineTo(end), and the current point
becomes the end point, for every positive approximateSegmentLength and every
configuration of the remaining options. -/
theorem C4_false_curve_single_line (G : GeomOps) (cfg : Config) (s : PenState)
    (A pt2 pt3 : Point) (hC : s.currentPt = some A) (h2 : pt2 = pt3)
    (hS : 0 < cfg.approximateSegmentLength) :
    FlattenPen._curveToOne G cfg s A pt2 pt3 =
      .ok ({ s with currentPt := some pt3 }, [Event.lineTo (some pt3)]) := by
  unfold FlattenPen._curveToOne
  rw [hC]
  dsimp only
  rw [if_pos (Or.inr ⟨rfl, h2⟩)]

/-- Witness for C4 at a concrete input. -/
theorem C4_false_curve_single_line_witness :
    FlattenPen._curveToOne G0 defaultConfig
        { currentPt := some (1, 1), firstPt := some (1, 1) } (1, 1) (7, 9) (7, 9) =
      .ok ({ currentPt := some (7, 9), firstPt := some (1, 1) },
        [Event.lineTo (some (7, 9))]) :=
  C4_false_curve_single_line G0 defaultConfig
    { currentPt := some (1, 1), firstPt := some (1, 1) } (1, 1) (7, 9) (7, 9)
    rfl rfl (by decide)

/-- Claim C6: with filterDoubles enabled, a lineTo whose target equals the
current point forwards nothing downstream and leaves the pen state unchanged,
for both values of segmentLines. -/
theorem C6_filterDoubles_drop (G : GeomOps) (cfg : Config) (s : PenState)
    (P : Point) (hC : s.currentPt = some P) (hfd : cfg.filterDoubles = true) :
    FlattenPen._lineTo G cfg s (some P) = .ok (s, []) := by
  unfold FlattenPen._lineTo
  rw [if_pos ⟨hfd, hC.symm⟩]

/-- Witness for C6 at a concrete input. -/
theorem C6_filterDoubles_drop_witness :
    FlattenPen._lineTo G0 defaultConfig
        { currentPt := some (2, 3), firstPt := some (0, 0) } (some (2, 3)) =
      .ok ({ currentPt := some (2, 3), firstPt := some (0, 0) }, []) :=
  C6_filterDoubles_drop G0 defaultConfig
    { currentPt := some (2, 3), firstPt := some (0, 0) } (2, 3) rfl rfl

/-- Claim C8: addComponent is forwarded downstream as exactly one identical
call, with no state change. -/
theorem C8_addComponent_passthrough (s : PenState) (glyphName : String)
    (transformation : Transform) :
    FlattenPen.addComponent s glyphName transformation =
      (s, [Event.addComponent glyphName transformation]) :=
  rfl

/-- Claim C10: the filterDoubles policy is never applied to curveTo: a cubic
whose end point equals the current point and which takes the single-line
branch (step count below one, or a false curve) still forwards a zero-length
lineTo(end) downstream even with filterDoubles enabled, while the same target
given to lineTo would be dropped. -/
theorem C10_curve_double_not_filtered (G : GeomOps) (cfg : Config)
    (s : PenState) (P pt1 pt2 : Point) (hC : s.currentPt = some P)
    (hfd : cfg.filterDoubles = true)
    (hbranch :
      pyRound (G.estimateCubicCurveLength P pt1 pt2 P /
        cfg.approximateSegmentLength) < 1 ∨ (pt1 = P ∧ pt2 = P)) :
    FlattenPen._curveToOne G cfg s pt1 pt2 P =
      .ok ({ s with currentPt := some P }, [Event.lineTo (some P)]) ∧
    FlattenPen._lineTo G cfg s (some P) = .ok (s, []) := by
  constructor
  · unfold FlattenPen._curveToOne
    rw [hC]
    dsimp only
    rw [if_pos hbranch]
  · unfold FlattenPen._lineTo
    rw [if_pos ⟨hfd, hC.symm⟩]

/-- Witness for C10 at a concrete input (the false-curve disjunct). -/
theorem C10_curve_double_not_filtered_witness :
    FlattenPen._curveToOne G0 defaultConfig
        { currentPt := some (4, 4), firstPt := some (0, 0) } (4, 4) (4, 4) (4, 4) =
      .ok ({ currentPt := some (4, 4), firstPt := some (0, 0) },
        [Event.lineTo (some (4, 4))]) ∧
    FlattenPen._lineTo G0 defaultConfig
        { currentPt := some (4, 4), firstPt := some (0, 0) } (some (4, 4)) =
      .ok ({ currentPt := some (4, 4), firstPt := some (0, 0) }, []) :=
  C10_curve_double_not_filtered G0 defaultConfig
    { currentPt := some (4, 4), firstPt := some (0, 0) } (4, 4) (4, 4) (4, 4)
    rfl rfl (Or.inr ⟨rfl, rfl⟩)

/-- Claim C3 counterexample: on a fresh FlattenPen with the constructor's
default configuration (segmentLines disabled), lineTo does NOT signal an
invalid-input error — it silently forwards a lineTo downstream. -/
theorem C3_counterexample_silent_lineTo :
    FlattenPen._lineTo G0 defaultConfig freshPen (some (1, 2)) =
      .ok ({ currentPt := some (1, 2), firstPt := none },
        [Event.lineTo (some (1, 2))]) :=
  rfl

/-- Claim C3, amended: on a fresh FlattenPen, curveTo raises an error with no
downstream output, and so does lineTo when segmentLines is enabled (the
TypeError from applying distance to the undefined current point); but with
segmentLines disabled, lineTo silently forwards a lineTo downstream, and with
filterDoubles enabled, closePath silently forwards a closePath downstream
(its synthesized lineTo(firstPt) is dropped as a double of the undefined
current point). -/
theorem C3_amended_fresh_pen (G : GeomOps) (cfg : Config) (s : PenState)
    (hs : s = freshPen) (p pt1 pt2 pt3 : Point) :
    FlattenPen._curveToOne G cfg s pt1 pt2 pt3 = .error () ∧
    (cfg.segmentLines = true →
      FlattenPen._lineTo G cfg s (some p) = .error ()) ∧
    (cfg.segmentLines = false →
      FlattenPen._lineTo G cfg s (some p) =
        .ok ({ currentPt := some p, firstPt := none },
          [Event.lineTo (some p)])) ∧
    (cfg.filterDoubles = true →
      FlattenPen._closePath G cfg s = .ok (freshPen, [Event.closePath])) := by
  subst hs
  refine ⟨rfl, ?_, ?_, ?_⟩
  · intro hseg
    unfold FlattenPen._lineTo
    rw [if_neg (by simp [freshPen]), hseg]
    rfl
  · intro hseg
    unfold FlattenPen._lineTo
    rw [if_neg (by simp [freshPen]), hseg]
    rfl
  · intro hfd
    unfold FlattenPen._closePath FlattenPen._lineTo
    rw [if_pos ⟨hfd, rfl⟩]
    rfl

/-- Witness for the amended C3, exercising both configurations. -/
theorem C3_amended_fresh_pen_witness :
    FlattenPen._curveToOne G0 defaultConfig freshPen (0, 0) (0, 0) (0, 0) =
      .error () ∧
    FlattenPen._lineTo G0 defaultConfig freshPen (some (1, 2)) =
      .ok ({ currentPt := some (1, 2), firstPt := none },
        [Event.lineTo (some (1, 2))]) ∧
    FlattenPen._closePath G0 defaultConfig freshPen =
      .ok (freshPen, [Event.closePath]) ∧
    FlattenPen._lineTo G0
        { approximateSegmentLength := 5, segmentLines := true,
          filterDoubles := true } freshPen (some (1, 2)) = .error () := by
  obtain ⟨h1, -, h3, h4⟩ :=
    C3_amended_fresh_pen G0 defaultConfig freshPen rfl (1, 2) (0, 0) (0, 0) (0, 0)
  obtain ⟨-, h2', -, -⟩ :=
    C3_amended_fresh_pen G0
      { approximateSegmentLength := 5, segmentLines := true,
        filterDoubles := true } freshPen rfl (1, 2) (0, 0) (0, 0) (0, 0)
  exact ⟨h1, h3 rfl, h4 rfl, h2' rfl⟩

/-- Claim C5 counterexample: after closePath, firstPt is NOT cleared — only
currentPt is set back to None. -/
theorem C5_counterexample_firstPt_not_cleared :
    FlattenPen._closePath G0 defaultConfig
        { currentPt := some (0, 0), firstPt := some (0, 0) } =
      .ok ({ currentPt := none, firstPt := some (0, 0) }, [Event.closePath]) ∧
    ({ currentPt := none, firstPt := some (0, 0) } : PenState).firstPt ≠ none :=
  ⟨rfl, by simp⟩

/-- Claim C5, amended: while currentPt and firstPt are defined, closePath
first applies the pen's own lineTo logic to firstPt (so the filterDoubles and
segmentLines policies apply to the synthesized closing edge), then forwards
exactly one closePath downstream; afterwards currentPt is cleared but firstPt
retains its value. -/
theorem C5_amended_closePath (G : GeomOps) (cfg : Config) (s : PenState)
    (A F : Point) (hC : s.currentPt = some A) (hF : s.firstPt = some F) :
    ∃ s1 evs, FlattenPen._lineTo G cfg s (some F) = .ok (s1, evs) ∧
      FlattenPen._closePath G cfg s =
        .ok ({ currentPt := none, firstPt := some F },
          evs ++ [Event.closePath]) := by
  obtain ⟨s1, evs, heq, hfp⟩ := lineTo_some_ok G cfg s A F hC
  refine ⟨s1, evs, heq, ?_⟩
  unfold FlattenPen._closePath
  rw [hF, heq]
  obtain ⟨c1, f1⟩ := s1
  dsimp only at hfp ⊢
  rw [hfp, hF]

/-- Witness for the amended C5 at a concrete input. -/
theorem C5_amended_closePath_witness :
    ∃ s1 evs,
      FlattenPen._lineTo G0 defaultConfig
          { currentPt := some (3, 0), firstPt := some (0, 0) } (some (0, 0)) =
        .ok (s1, evs) ∧
      FlattenPen._closePath G0 defaultConfig
          { currentPt := some (3, 0), firstPt := some (0, 0) } =
        .ok ({ currentPt := none, firstPt := some (0, 0) },
          evs ++ [Event.closePath]) :=
  C5_amended_closePath G0 defaultConfig
    { currentPt := some (3, 0), firstPt := some (0, 0) } (3, 0) (0, 0) rfl rfl

/-- Claim C2 counterexample: under the program's binary64 arithmetic the last
emitted point is NOT bit-exactly B.  From A=(0,0) to B=(245,0) with S=5 (and
the correctly rounded square root, sqrt(60025.0)=245.0 exactly), maxSteps is
49, step = fl(1/49), and the last sample interpolates at
t = fl(49*step) = 1 - 2^-53, giving last x = 245 - 2^-45 (Python
244.99999999999997), while currentPt is still set to exactly B. -/
theorem C2_counterexample_float_last_point :
    Except.map (fun r => (r.2.getLast?, r.1.currentPt))
        (FlattenPen.lineToF64 sqrtF0
          { approximateSegmentLength := 5, segmentLines := true,
            filterDoubles := true }
          { currentPt := some (0, 0), firstPt := some (0, 0) } (some (245, 0))) =
      .ok (some (Event.lineTo (some (245 - 1 / 2 ^ 45, 0))), some (245, 0)) ∧
    ((245 - 1 / 2 ^ 45 : ℚ), (0 : ℚ)) ≠ ((245 : ℚ), (0 : ℚ)) := by
  have hsub245 : fsub (245 : ℚ) 0 = 245 := by
    unfold fsub
    norm_num [fl_245]
  have hsub0 : fsub (0 : ℚ) 0 = 0 := by
    unfold fsub
    norm_num [fl_zero]
  have hd : distanceF sqrtF0 (0, 0) (245, 0) = 245 := by
    unfold distanceF
    dsimp only
    rw [hsub245, hsub0]
    have hm1 : fmul (245 : ℚ) 245 = 60025 := by
      unfold fmul
      norm_num [fl_60025]
    have hm2 : fmul (0 : ℚ) 0 = 0 := by
      unfold fmul
      norm_num [fl_zero]
    rw [hm1, hm2]
    have ha : fadd (60025 : ℚ) 0 = 60025 := by
      unfold fadd
      norm_num [fl_60025]
    rw [ha]
    unfold sqrtF0
    norm_num
  have hdiv : fdiv (245 : ℚ) 5 = 49 := by
    unfold fdiv
    norm_num [fl_49]
  have hstep : fdiv (1 : ℚ) (((49 : ℤ) : ℚ)) = 5882252574524729 / 2 ^ 58 := by
    unfold fdiv
    norm_num [fl_inv49]
  have hlast : interpolatePointF (0, 0) (245, 0)
      (fmul ((49 : ℕ) : ℚ) (5882252574524729 / 2 ^ 58)) = (245 - 1 / 2 ^ 45, 0) := by
    have ht : fmul ((49 : ℕ) : ℚ) (5882252574524729 / 2 ^ 58) =
        9007199254740991 / 2 ^ 53 := by
      unfold fmul
      rw [show (((49 : ℕ) : ℚ)) = 49 from by norm_num]
      exact fl_t49
    rw [ht]
    unfold interpolatePointF
    dsimp only
    rw [hsub245, hsub0]
    have hx : fmul (245 : ℚ) (9007199254740991 / 2 ^ 53) = 8620171161763839 / 2 ^ 45 := by
      unfold fmul
      exact fl_lastx
    rw [hx]
    have hax : fadd (0 : ℚ) (8620171161763839 / 2 ^ 45) = 8620171161763839 / 2 ^ 45 := by
      unfold fadd
      rw [zero_add]
      exact fl_lastx_rep
    rw [hax]
    have hy : fmul (0 : ℚ) (9007199254740991 / 2 ^ 53) = 0 := by
      unfold fmul
      norm_num [fl_zero]
    rw [hy]
    have hay : fadd (0 : ℚ) 0 = 0 := by
      unfold fadd
      norm_num [fl_zero]
    rw [hay]
    norm_num
  constructor
  · unfold FlattenPen.lineToF64
    rw [if_neg (by decide), if_neg (by decide)]
    dsimp only
    rw [hd, hdiv, pyRound_49]
    rw [if_neg (by norm_num : ¬((49 : ℤ) < 1))]
    rw [hstep]
    rw [show ((49 : ℤ).toNat) = 49 from rfl]
    rw [Except.map]
    dsimp only
    rw [List.getLast?_map, range'_one_getLast? 49 (by norm_num), Option.map_some']
    rw [hlast]
  · intro hbad
    rw [Prod.mk.injEq] at hbad
    exact absurd hbad.1 (by norm_num)

/-- Claim C2, amended: with segmentLines enabled, a lineTo from current point
A to a distinct point B with positive target length S emits exactly
max(1, round(distanceF(A,B)/S)) events downstream (distance and quotient
computed in binary64; round is Python's round-half-to-even), every emitted
event is a lineTo, and CurrentPoint is afterwards set to exactly B (firstPt
untouched) — the code assigns pt itself, not the last sample.  The last
emitted point equals B only up to binary64 rounding of `i * step`; it need
not be bit-exact. -/
theorem C2_amended_line_count (sqrtF : ℚ → ℚ) (cfg : Config) (s : PenState)
    (A B : Point) (hC : s.currentPt = some A) (hAB : B ≠ A)
    (hseg : cfg.segmentLines = true) (hS : 0 < cfg.approximateSegmentLength) :
    ∃ evs,
      FlattenPen.lineToF64 sqrtF cfg s (some B) =
        .ok ({ s with currentPt := some B }, evs) ∧
      evs.length =
        (max 1 (pyRound (fdiv (distanceF sqrtF A B)
          cfg.approximateSegmentLength))).toNat ∧
      (∀ e ∈ evs, ∃ q, e = Event.lineTo (some q)) := by
  have hne : ¬(cfg.filterDoubles = true ∧ (some B : Option Point) = s.currentPt) := by
    rw [hC]
    rintro ⟨-, hbad⟩
    exact hAB (Option.some.inj hbad)
  unfold FlattenPen.lineToF64
  rw [if_neg hne, hseg]
  rw [if_neg (by simp : ¬((!true) = true))]
  rw [hC]
  dsimp only
  by_cases hlt : pyRound (fdiv (distanceF sqrtF A B) cfg.approximateSegmentLength) < 1
  · rw [if_pos hlt]
    refine ⟨[Event.lineTo (some B)], rfl, ?_, ?_⟩
    · rw [max_eq_left hlt.le]
      rfl
    · intro e he
      rw [List.mem_singleton] at he
      exact ⟨B, he⟩
  · push_neg at hlt
    rw [if_neg (not_lt.2 hlt)]
    refine ⟨_, rfl, ?_, ?_⟩
    · rw [List.length_map, List.length_range', max_eq_right hlt]
    · intro e he
      obtain ⟨i, -, rfl⟩ := List.mem_map.1 he
      exact ⟨_, rfl⟩

/-- Witness for the amended C2 at the counterexample's own input: 49 steps
from (0,0) to (245,0) with target length 5. -/
theorem C2_amended_line_count_witness :
    ∃ evs,
      FlattenPen.lineToF64 sqrtF0
          { approximateSegmentLength := 5, segmentLines := true,
            filterDoubles := true }
          { currentPt := some (0, 0), firstPt := some (0, 0) } (some (245, 0)) =
        .ok ({ currentPt := some (245, 0), firstPt := some (0, 0) }, evs) ∧
      evs.length =
        (max 1 (pyRound (fdiv (distanceF sqrtF0 (0, 0) (245, 0)) (5 : ℚ)))).toNat ∧
      (∀ e ∈ evs, ∃ q, e = Event.lineTo (some q)) :=
  C2_amended_line_count sqrtF0
    { approximateSegmentLength := 5, segmentLines := true, filterDoubles := true }
    { currentPt := some (0, 0), firstPt := some (0, 0) } (0, 0) (245, 0)
    rfl (by decide) rfl (by decide)

/-- Claim C7 counterexample: with segmentLines disabled and the constructor's
default filterDoubles, a closed pure-line path is NOT forwarded with the same
lineTo count: closePath synthesizes an extra closing lineTo, so one input
lineTo becomes two downstream. -/
theorem C7_counterexample_closing_edge :
    (FlattenPen.run G0 defaultConfig freshPen
        [Event.moveTo (0, 0), Event.lineTo (some (1, 0)), Event.closePath]).1 =
      [Event.moveTo (0, 0), Event.lineTo (some (1, 0)),
        Event.lineTo (some (0, 0)), Event.closePath] :=
  rfl

/-- Claim C7, amended: with segmentLines disabled and filterDoubles disabled,
an input composed only of moveTo, lineTo and endPath events is forwarded
downstream completely unchanged (same events, same order, hence the same
lineTo endpoints and count), and the run succeeds.  (With closePath in the
input an extra synthesized closing lineTo may be emitted, and with
filterDoubles enabled duplicate lines are dropped.) -/
theorem C7_amended_pure_line_identity (G : GeomOps) (cfg : Config)
    (hseg : cfg.segmentLines = false) (hfd : cfg.filterDoubles = false)
    (s : PenState) (input : List Event)
    (h : ∀ e ∈ input, lineOnlyEvent e = true) :
    (FlattenPen.run G cfg s input).1 = input ∧
    ∃ s', (FlattenPen.run G cfg s input).2 = .ok s' := by
  induction input generalizing s with
  | nil => exact ⟨rfl, s, rfl⟩
  | cons e es ih =>
    have he : lineOnlyEvent e = true := h e (List.mem_cons_self _ _)
    have hes : ∀ x ∈ es, lineOnlyEvent x = true :=
      fun x hx => h x (List.mem_cons_of_mem _ hx)
    have hstep : ∃ s1, FlattenPen.step G cfg s e = .ok (s1, [e]) := by
      cases e with
      | moveTo pt => exact ⟨_, rfl⟩
      | lineTo pt =>
        cases pt with
        | none => simp [lineOnlyEvent] at he
        | some p =>
          refine ⟨{ s with currentPt := some p }, ?_⟩
          unfold FlattenPen.step FlattenPen._lineTo
          dsimp only
          rw [if_neg (by simp [hfd]), hseg]
          rfl
      | endPath => exact ⟨_, rfl⟩
      | curveTo q1 q2 q3 => simp [lineOnlyEvent] at he
      | closePath => simp [lineOnlyEvent] at he
      | addComponent n t => simp [lineOnlyEvent] at he
    obtain ⟨s1, hstep⟩ := hstep
    obtain ⟨hout, s', hok⟩ := ih s1 hes
    rw [FlattenPen.run, hstep]
    dsimp only
    exact ⟨by rw [hout, List.singleton_append], s', hok⟩

/-- Witness for the amended C7 at a concrete input. -/
theorem C7_amended_pure_line_identity_witness :
    (FlattenPen.run G0
        { approximateSegmentLength := 5, segmentLines := false,
          filterDoubles := false } freshPen
        [Event.moveTo (0, 0), Event.lineTo (some (2, 2)), Event.endPath]).1 =
      [Event.moveTo (0, 0), Event.lineTo (some (2, 2)), Event.endPath] ∧
    ∃ s',
      (FlattenPen.run G0
          { approximateSegmentLength := 5, segmentLines := false,
            filterDoubles := false } freshPen
          [Event.moveTo (0, 0), Event.lineTo (some (2, 2)), Event.endPath]).2 =
        .ok s' :=
  C7_amended_pure_line_identity G0
    { approximateSegmentLength := 5, segmentLines := false,
      filterDoubles := false } rfl rfl freshPen
    [Event.moveTo (0, 0), Event.lineTo (some (2, 2)), Event.endPath]
    (by decide)

/-- Claim C9: flattenGlyph returns an empty outline (zero contours) unchanged,
performing no flattening and no downstream calls; a non-empty outline is
drained through a FlattenPen (threshold as segment length, filterDoubles left
at its default True) into a buffer, and the returned outline is exactly the
cleared outline rebuilt from the buffered events — in particular it contains
no curveTo. -/
theorem C9_flattenGlyph_empty_or_rebuild (G : GeomOps) (t : ℚ) (sl : Bool)
    (g g' : Glyph) :
    (g.len = 0 → flattenGlyph G g t sl = .ok g) ∧
    (g.len ≠ 0 → flattenGlyph G g t sl = .ok g' →
      g'.contours =
        splitContours
          (FlattenPen.run G
            { approximateSegmentLength := t, segmentLines := sl,
              filterDoubles := true } freshPen g.draw).1 ∧
      ∀ p1 p2 p3, Event.curveTo p1 p2 p3 ∉ g'.draw) := by
  constructor
  · intro h0
    unfold flattenGlyph
    rw [if_pos h0]
  · intro h0 heq
    unfold flattenGlyph at heq
    rw [if_neg h0] at heq
    dsimp only at heq
    rcases hrun : FlattenPen.run G
        { approximateSegmentLength := t, segmentLines := sl,
          filterDoubles := true } freshPen g.draw with ⟨buf, r⟩
    rw [hrun] at heq
    cases r with
    | error e => cases heq
    | ok st =>
      dsimp only at heq
      obtain rfl : ({ contours := splitContours buf } : Glyph) = g' :=
        Except.ok.inj heq
      refine ⟨rfl, ?_⟩
      intro p1 p2 p3 hmem
      unfold Glyph.draw at hmem
      obtain ⟨c, hc, hcmem⟩ := List.mem_flatten.1 hmem
      rcases splitContoursGo_mem buf [] c hc _ hcmem with hm | hm | hm | hm
      · have : Event.curveTo p1 p2 p3 ∉ (FlattenPen.run G
            { approximateSegmentLength := t, segmentLines := sl,
              filterDoubles := true } freshPen g.draw).1 :=
          run_emits_no_curveTo _ _ _ _ _ _ _
        rw [hrun] at this
        exact this hm
      · cases hm
      · cases hm
      · cases hm

/-- Witness for C9: the empty glyph is returned unchanged, and a one-contour
glyph is rebuilt from the buffered flattened events. -/
theorem C9_flattenGlyph_empty_or_rebuild_witness :
    flattenGlyph G0 { contours := [] } 10 true = .ok { contours := [] } ∧
    ({ contours := [[Event.moveTo (0, 0), Event.closePath]] } : Glyph).contours =
      splitContours
        (FlattenPen.run G0
          { approximateSegmentLength := 10, segmentLines := false,
            filterDoubles := true } freshPen
          (Glyph.draw { contours := [[Event.moveTo (0, 0), Event.closePath]] })).1 ∧
    ∀ p1 p2 p3, Event.curveTo p1 p2 p3 ∉
      ({ contours := [[Event.moveTo (0, 0), Event.closePath]] } : Glyph).draw := by
  refine ⟨(C9_flattenGlyph_empty_or_rebuild G0 10 true { contours := [] }
    { contours := [] }).1 rfl, ?_⟩
  have h2 := (C9_flattenGlyph_empty_or_rebuild G0 10 false
    { contours := [[Event.moveTo (0, 0), Event.closePath]] }
    { contours := [[Event.moveTo (0, 0), Event.closePath]] }).2
    (by decide) (by rfl)
  exact h2

end FontPens
